import Mathlib

/-!
Verification of the jagua-rs collision-detection core against its
natural-language specification.

The embedding follows the source files:
* `jaguars/src/collision_detection/haz_prox_grid/hp_cell.rs` (HPCell and its
  register/deregister protocol),
* `jaguars/src/entities/problems/strip_packing.rs` (strip-width modification),
* `jagua-rs/src/geometry/d_transformation.rs` (decomposed transformations).

Geometry primitives (`Point`, `Circle`, `AARectangle`), the `Proximity` type
with its total order, and the `Hazard`/`HazardEntity` model are not part of
the provided sources; they are modelled from the specification (spec sections
3 and 4.1), as noted on each definition. Machine floats are modelled as exact
rationals, with `⊤` (in `WithTop ℚ`) playing the role of `f64::INFINITY` for
the sentinel proximity, and Rust panics are modelled by `Option`/`none`.
-/

set_option maxRecDepth 4096

namespace JaguaRS

/-- Modelled from the spec: the number of quality classes, `N_QUALITIES = 10`
(spec section 6, fixed constant; `jaguars::N_QUALITIES` is not in src). -/
def N_QUALITIES : Nat := 10

/-- Modelled from the spec: a point is an ordered pair of finite reals,
represented exactly by rationals. -/
structure Point where
  x : ℚ
  y : ℚ
deriving DecidableEq

/-- Modelled from the spec: GeoPosition distinguishes the Interior and the
Exterior of a shape. -/
inductive GeoPosition where
  | Interior : GeoPosition
  | Exterior : GeoPosition
deriving DecidableEq

/-- Modelled from the spec (section 3): a Proximity is a pair
`(position, |d|)` with `|d| ≥ 0` the absolute distance to a border; the
default/sentinel value is `(Exterior, +∞)`, hence the distance lives in
`WithTop ℚ`. -/
structure Proximity where
  position : GeoPosition
  distance_from_border : WithTop ℚ
deriving DecidableEq

/-- `Proximity::new(pos, |d|)` (spec section 4.1): both components stored as
given; a finite distance. -/
def Proximity.new (pos : GeoPosition) (d : ℚ) : Proximity :=
  ⟨pos, (d : WithTop ℚ)⟩

/-- `Proximity::default()` (spec section 3): the sentinel `(Exterior, +∞)`. -/
def Proximity.default : Proximity :=
  ⟨GeoPosition.Exterior, ⊤⟩

/-- Modelled from the spec (section 3): the total order on Proximity.
Interior proximities are closer than all Exterior ones; Interior compares by
greater `|d|` first (deeper inside = closer), Exterior by smaller `|d|`. -/
def Proximity.le (a b : Proximity) : Bool :=
  match a.position, b.position with
  | GeoPosition.Interior, GeoPosition.Exterior => true
  | GeoPosition.Exterior, GeoPosition.Interior => false
  | GeoPosition.Interior, GeoPosition.Interior =>
      decide (b.distance_from_border ≤ a.distance_from_border)
  | GeoPosition.Exterior, GeoPosition.Exterior =>
      decide (a.distance_from_border ≤ b.distance_from_border)

/-- Strict version of the Proximity order. -/
def Proximity.lt (a b : Proximity) : Bool :=
  !(Proximity.le b a)

/-- `Ord::cmp` for Proximity, derived from the total order. -/
def Proximity.cmp (a b : Proximity) : Ordering :=
  if Proximity.lt a b then Ordering.lt
  else if Proximity.lt b a then Ordering.gt
  else Ordering.eq

/-- `Ord::min` for Proximity: keeps the first argument on ties. -/
def Proximity.minP (a b : Proximity) : Proximity :=
  if Proximity.le a b then a else b

/-- Modelled from the spec (section 3): the tagged classifier naming the
origin of a hazard. Ids are abstracted to naturals. -/
inductive HazardEntity where
  | BinOuter : HazardEntity
  | BinHole : Nat → HazardEntity
  | QualityZoneInferior : Nat → Nat → HazardEntity
  | PlacedItem : Nat → HazardEntity
deriving DecidableEq

/-- Modelled from the spec (section 3): each entity variant declares a
`presence`. BinOuter has presence Exterior; holes, quality zones and placed
items have presence Interior. -/
def HazardEntity.presence : HazardEntity → GeoPosition
  | HazardEntity.BinOuter => GeoPosition.Exterior
  | HazardEntity.BinHole _ => GeoPosition.Interior
  | HazardEntity.QualityZoneInferior _ _ => GeoPosition.Interior
  | HazardEntity.PlacedItem _ => GeoPosition.Interior

/-- Modelled from the spec (section 3): a circle, represented for the cell
protocol by its `distance_from_border` oracle, returning the GeoPosition of
the queried point relative to the circle and the (signed) distance to its
border. The concrete geometry is not part of the provided sources. -/
structure Circle where
  distance_from_border : Point → GeoPosition × ℚ

/-- Modelled from the spec (section 3): the surrogate of a polygon, a list of
inner poles plus a bounding circle of the poles. -/
structure Surrogate where
  poles : List Circle
  poles_bounding_circle : Circle

/-- Modelled from the spec (section 3): the shape of a hazard, represented by
its `distance_from_border` trait method (position of the point relative to
the shape, and distance to its border) and its precomputed surrogate. -/
structure HazardShape where
  distance_from_border : Point → GeoPosition × ℚ
  surrogate : Surrogate

/-- Modelled from the spec (section 3): `Hazard = (entity, shape, active)`. -/
structure Hazard where
  entity : HazardEntity
  shape : HazardShape
  active : Bool

/-- `Hazard::is_active`. -/
def Hazard.is_active (h : Hazard) : Bool := h.active

/-- Modelled from the spec (section 3): an axis-aligned rectangle. -/
structure AARectangle where
  x_min : ℚ
  y_min : ℚ
  x_max : ℚ
  y_max : ℚ
deriving DecidableEq

/-- Modelled from the spec: the centroid of an axis-aligned rectangle is the
midpoint of its corners (exact rational arithmetic). -/
def AARectangle.centroid (r : AARectangle) : Point :=
  ⟨(r.x_min + r.x_max) / 2, (r.y_min + r.y_max) / 2⟩

/-- `HPCell` (hp_cell.rs, lines 15-25): a single hazard-proximity-grid cell.
The quality-zone array `[Proximity; N_QUALITIES]` is modelled as a list of
length `N_QUALITIES`; out-of-bounds indexing maps to `none` (a Rust panic). -/
structure HPCell where
  bbox : AARectangle
  centroid : Point
  radius : ℚ
  uni_haz_prox : Proximity × HazardEntity
  static_uni_haz_prox : Proximity × HazardEntity
  qz_haz_prox : List Proximity
deriving DecidableEq

/-- `HPCellUpdate` (hp_cell.rs, lines 245-250). -/
inductive HPCellUpdate where
  | Affected : HPCellUpdate
  | Unaffected : HPCellUpdate
  | Boundary : HPCellUpdate
deriving DecidableEq

/-- `HPCell::universal_hazard_proximity` (hp_cell.rs, lines 221-223). -/
def HPCell.universal_hazard_proximity (c : HPCell) : Proximity × HazardEntity :=
  c.uni_haz_prox

/-- `distance_to_surrogate_poles_border` (hp_cell.rs, lines 238-243): minimum
over the poles of `Proximity(pos, |dist|)` at the cell's centroid. The Rust
code calls `.min().unwrap()`, panicking on an empty pole list; that panic is
`none` here. -/
def distance_to_surrogate_poles_border (hp_cell : HPCell) (poles : List Circle) :
    Option Proximity :=
  match (poles.map fun p =>
      let pd := p.distance_from_border hp_cell.centroid
      Proximity.new pd.1 |pd.2| ) with
  | [] => none
  | q :: qs => some (qs.foldl Proximity.minP q)

/-- `HPCell::register_hazard` (hp_cell.rs, lines 113-136). The
`unreachable!` for dynamic exterior hazards and the `unwrap` on an empty
pole list are modelled as `none`. -/
def HPCell.register_hazard (c : HPCell) (to_register : Hazard) :
    Option (HPCell × HPCellUpdate) :=
  let current_prox := c.universal_hazard_proximity.1
  match to_register.entity.presence with
  | GeoPosition.Exterior => none
  | GeoPosition.Interior =>
    match distance_to_surrogate_poles_border c to_register.shape.surrogate.poles with
    | none => none
    | some haz_prox =>
      match Proximity.cmp haz_prox current_prox with
      | Ordering.lt =>
          some ({ c with uni_haz_prox := (haz_prox, to_register.entity) },
                HPCellUpdate.Affected)
      | _ =>
          if haz_prox.distance_from_border >
              current_prox.distance_from_border + ((2 * c.radius : ℚ) : WithTop ℚ) then
            some (c, HPCellUpdate.Boundary)
          else
            some (c, HPCellUpdate.Unaffected)

/-- The derived order on `Option<Proximity>` used by the batched
registration: `None` sorts before every `Some` (Rust's `Option` `Ord`). -/
def optProxLe : Option Proximity → Option Proximity → Bool
  | none, _ => true
  | some _, none => false
  | some a, some b => Proximity.le a b

/-- Strict version of the `Option<Proximity>` order. -/
def optProxLt (a b : Option Proximity) : Bool :=
  !(optProxLe b a)

/-- One entry of the batched-registration work list: a hazard together with
its (optional) bounding-circle proximity key. -/
abbrev BoundEntry := Hazard × Option Proximity

/-- The fold behind `iter().enumerate().min_by_key(...)`: scans the tail with
a running best, replacing the best only on a strictly smaller key, so the
first minimal element wins — Rust's `min_by_key` tie-break. -/
def minByKeyAux : Nat × BoundEntry → Nat → List BoundEntry → Nat × BoundEntry
  | best, _, [] => best
  | best, i, y :: ys =>
      minByKeyAux (if optProxLt y.2 best.2.2 then (i, y) else best) (i + 1) ys

/-- `Vec::swap_remove(i)`: removes the element at index `i`, replacing it
with the last element of the vector. -/
def swapRemove {α : Type} (l : List α) (i : Nat) : List α :=
  match l.getLast? with
  | none => l
  | some last => (l.dropLast).set i last

/-- The loop of `HPCell::register_hazards` (hp_cell.rs, lines 87-110):
repeatedly pick the work-list entry with the smallest bounding key
(`min_by_key`), register it when its key is `None` (exterior presence) or
when the key is at most the current universal proximity, and stop at the
first entry whose key exceeds the current proximity. Recursion is structural
on a fuel argument; each iteration removes exactly one element, so fuel
`l.length` (used by `registerLoop` below) runs the loop to completion. -/
def registerLoopF : Nat → HPCell → List BoundEntry → Option HPCell
  | _, c, [] => some c
  | 0, c, _ :: _ => some c
  | fuel + 1, c, x :: xs =>
    let m := minByKeyAux (0, x) 1 xs
    let current_proximity := c.uni_haz_prox.1
    match m.2.2 with
    | none =>
      match HPCell.register_hazard c m.2.1 with
      | none => none
      | some (c', _) => registerLoopF fuel c' (swapRemove (x :: xs) m.1)
    | some bounding_prox =>
      if Proximity.le bounding_prox current_proximity then
        match HPCell.register_hazard c m.2.1 with
        | none => none
        | some (c', _) => registerLoopF fuel c' (swapRemove (x :: xs) m.1)
      else some c

/-- The `while !bounding_pole_distances.is_empty()` loop, run to completion. -/
def registerLoop (c : HPCell) (l : List BoundEntry) : Option HPCell :=
  registerLoopF l.length c l

/-- The pre-screening pass of `HPCell::register_hazards` (hp_cell.rs, lines
72-84): keep the active hazards and pair each with its bounding-circle lower
bound (`None` for exterior presence). -/
def boundingPoleDistances (c : HPCell) (to_register : List Hazard) : List BoundEntry :=
  (to_register.filter Hazard.is_active).map fun haz =>
    match haz.entity.presence with
    | GeoPosition.Exterior => (haz, none)
    | GeoPosition.Interior =>
      let pr := haz.shape.surrogate.poles_bounding_circle.distance_from_border c.centroid
      (haz, some (Proximity.new pr.1 |pr.2|))

/-- `HPCell::register_hazards` (hp_cell.rs, lines 66-111). -/
def HPCell.register_hazards (c : HPCell) (to_register : List Hazard) : Option HPCell :=
  registerLoop c (boundingPoleDistances c to_register)

/-- `HPCell::deregister_hazards` (hp_cell.rs, lines 138-150). -/
def HPCell.deregister_hazards (c : HPCell) (to_deregister : List HazardEntity)
    (remaining : List Hazard) : Option (HPCell × HPCellUpdate) :=
  if c.uni_haz_prox.2 ∈ to_deregister then
    let c1 : HPCell := { c with uni_haz_prox := c.static_uni_haz_prox }
    match c1.register_hazards remaining with
    | none => none
    | some c2 => some (c2, HPCellUpdate.Affected)
  else
    some (c, HPCellUpdate.Unaffected)

/-- One step of the static fold in `HPCell::new` (hp_cell.rs, lines 37-54):
update the static universal proximity or a quality-zone slot from one static
hazard. The `panic!` on an unexpected entity and out-of-bounds quality
indexing are `none`. -/
def staticHazardStep (centroid : Point)
    (acc : (Proximity × HazardEntity) × List Proximity) (hazard : Hazard) :
    Option ((Proximity × HazardEntity) × List Proximity) :=
  let pd := hazard.shape.distance_from_border centroid
  let prox := if pd.1 == hazard.entity.presence
    then Proximity.new GeoPosition.Interior pd.2
    else Proximity.new GeoPosition.Exterior pd.2
  match hazard.entity with
  | HazardEntity.BinOuter =>
      if Proximity.lt prox acc.1.1 then some ((prox, hazard.entity), acc.2) else some acc
  | HazardEntity.BinHole _ =>
      if Proximity.lt prox acc.1.1 then some ((prox, hazard.entity), acc.2) else some acc
  | HazardEntity.QualityZoneInferior quality _ =>
      match acc.2[quality]? with
      | none => none
      | some old => some (acc.1, acc.2.set quality (Proximity.minP old prox))
  | HazardEntity.PlacedItem _ => none

/-- `HPCell::new` (hp_cell.rs, lines 28-64). The centroid is the bbox
midpoint; the radius (the half-diagonal `sqrt((w/2)² + (h/2)²)`, irrational
in general) is passed in as a parameter since the embedding works over exact
rationals. Both universal proximity slots start at the same static value. -/
def HPCell.new (bbox : AARectangle) (radius : ℚ) (static_hazards : List Hazard) :
    Option HPCell :=
  let centroid := bbox.centroid
  let init : (Proximity × HazardEntity) × List Proximity :=
    ((Proximity.default, HazardEntity.BinOuter), List.replicate N_QUALITIES Proximity.default)
  match static_hazards.foldlM (staticHazardStep centroid) init with
  | none => none
  | some (static_uni_haz_prox, qz_haz_prox) =>
      some { bbox := bbox, centroid := centroid, radius := radius,
             uni_haz_prox := static_uni_haz_prox,
             static_uni_haz_prox := static_uni_haz_prox,
             qz_haz_prox := qz_haz_prox }

/-- `HPCell::hazard_proximity` (hp_cell.rs, lines 207-219): fold `min` over
the quality-zone slots below the quality level (all of them when `None`),
starting from the universal proximity. Out-of-bounds indexing is `none`. -/
def HPCell.hazard_proximity (c : HPCell) (quality_level : Option Nat) : Option Proximity :=
  let relevant_qualities := List.range (quality_level.getD N_QUALITIES)
  relevant_qualities.foldlM
    (fun haz_prox quality => (c.qz_haz_prox[quality]?).map (Proximity.minP haz_prox))
    c.uni_haz_prox.1

/-- `HPCell::calculate_value` (hp_cell.rs, lines 172-184): squared distance
scaled by the quality-correction factor of the first Interior quality-zone
slot. -/
def HPCell.calculate_value (uni_haz_prox : Proximity) (qz_prox : List Proximity) :
    WithTop ℚ :=
  let value := uni_haz_prox.distance_from_border * uni_haz_prox.distance_from_border
  let centroid_in_qz := qz_prox.findIdx? (fun q => q.position == GeoPosition.Interior)
  let quality_correction_factor : ℚ :=
    match centroid_in_qz with
    | some quality => (quality : ℚ) / (N_QUALITIES : ℚ)
    | none => 1
  value * ((quality_correction_factor : ℚ) : WithTop ℚ)

/-- `HPCell::value` (hp_cell.rs, lines 164-170). -/
def HPCell.value (c : HPCell) : WithTop ℚ :=
  HPCell.calculate_value c.uni_haz_prox.1 c.qz_haz_prox

/-- Modelled from the spec: an `f64` as it matters to `NotNan` — either NaN
or an exact numeric value. -/
inductive F64 where
  | nan : F64
  | val : ℚ → F64
deriving DecidableEq

/-- `f64::is_nan`. -/
def F64.is_nan : F64 → Bool
  | F64.nan => true
  | F64.val _ => false

/-- Modelled from the spec: `ordered_float::NotNan<f64>` — a float checked to
be non-NaN; `NotNan::new` errs exactly on NaN. -/
structure NotNanF where
  value : ℚ
deriving DecidableEq

/-- `NotNan::new`: `Err` (here `none`) if and only if the input is NaN. -/
def NotNanF.new : F64 → Option NotNanF
  | F64.nan => none
  | F64.val q => some ⟨q⟩

/-- Back into an `f64` (`NotNan::into`): never NaN. -/
def NotNanF.into (n : NotNanF) : F64 := F64.val n.value

/-- `DTransformation` (d_transformation.rs, lines 8-15): rotation plus
translation, both stored as non-NaN floats. -/
structure DTransformation where
  rotation : NotNanF
  translation : NotNanF × NotNanF
deriving DecidableEq

/-- `DTransformation::new` (d_transformation.rs, lines 18-26): the `expect`
calls panic (here `none`) exactly when a component is NaN. -/
def DTransformation.new (rotation : F64) (translation : F64 × F64) :
    Option DTransformation :=
  match NotNanF.new rotation, NotNanF.new translation.1, NotNanF.new translation.2 with
  | some r, some t0, some t1 => some ⟨r, (t0, t1)⟩
  | _, _, _ => none

/-- `DTransformation::empty` (d_transformation.rs, lines 28-34): the zero
rotation and translation. -/
def DTransformation.empty : DTransformation :=
  DTransformation.mk (NotNanF.mk 0) (NotNanF.mk 0, NotNanF.mk 0)

/-- The `rotation()` accessor (d_transformation.rs, lines 36-38). -/
def DTransformation.rotationAcc (d : DTransformation) : F64 :=
  d.rotation.into

/-- The `translation()` accessor (d_transformation.rs, lines 40-42). -/
def DTransformation.translationAcc (d : DTransformation) : F64 × F64 :=
  (d.translation.1.into, d.translation.2.into)

/-- `distance_to_surrogate_poles_border` depends on the cell only through its
centroid; this is the same computation as a function of the centroid. -/
def polesProxAt (cent : Point) (poles : List Circle) : Option Proximity :=
  match (poles.map fun p =>
      let pd := p.distance_from_border cent
      Proximity.new pd.1 |pd.2| ) with
  | [] => none
  | q :: qs => some (qs.foldl Proximity.minP q)

/-- The bounding-circle pre-screening proximity of a hazard at a point
(hp_cell.rs, lines 78-81). -/
def boundProxAt (cent : Point) (haz : Hazard) : Proximity :=
  let pr := haz.shape.surrogate.poles_bounding_circle.distance_from_border cent
  Proximity.new pr.1 |pr.2|

/-- The geometric contract of the pre-screening (spec section 4.4): the
bounding-circle proximity is a lower bound, under the Proximity order, for
the exact pole proximity of the hazard at the same point. -/
def LowerBounded (cent : Point) (haz : Hazard) : Prop :=
  ∃ p, polesProxAt cent haz.shape.surrogate.poles = some p ∧
    Proximity.le (boundProxAt cent haz) p = true

/-- The registration loop without its early stop: every work-list entry is
registered through `register_hazard`, in the same ascending-key order. -/
def registerLoopNSF : Nat → HPCell → List BoundEntry → Option HPCell
  | _, c, [] => some c
  | 0, c, _ :: _ => some c
  | fuel + 1, c, x :: xs =>
    let m := minByKeyAux (0, x) 1 xs
    match HPCell.register_hazard c m.2.1 with
    | none => none
    | some (c', _) => registerLoopNSF fuel c' (swapRemove (x :: xs) m.1)

/-- Registration of every active hazard with no early stop, in ascending
lower-bound order: the reference point for the soundness of the early stop. -/
def register_hazards_no_stop (c : HPCell) (to_register : List Hazard) : Option HPCell :=
  registerLoopNSF (boundingPoleDistances c to_register).length c
    (boundingPoleDistances c to_register)

/-- The registration loop with the early stop exactly as the claim words it:
stop as soon as the next lower bound's `|d|` exceeds the current
`uni_haz_prox.0.|d|` (a comparison of the distance components only, instead
of the code's comparison under the full Proximity order). -/
def registerLoopClaimStopF : Nat → HPCell → List BoundEntry → Option HPCell
  | _, c, [] => some c
  | 0, c, _ :: _ => some c
  | fuel + 1, c, x :: xs =>
    let m := minByKeyAux (0, x) 1 xs
    let current_proximity := c.uni_haz_prox.1
    match m.2.2 with
    | none =>
      match HPCell.register_hazard c m.2.1 with
      | none => none
      | some (c', _) => registerLoopClaimStopF fuel c' (swapRemove (x :: xs) m.1)
    | some bounding_prox =>
      if bounding_prox.distance_from_border ≤ current_proximity.distance_from_border then
        match HPCell.register_hazard c m.2.1 with
        | none => none
        | some (c', _) => registerLoopClaimStopF fuel c' (swapRemove (x :: xs) m.1)
      else some c

/-- `register_hazards` as the claim literally describes its stopping rule. -/
def register_hazards_claim_stop (c : HPCell) (to_register : List Hazard) : Option HPCell :=
  registerLoopClaimStopF (boundingPoleDistances c to_register).length c
    (boundingPoleDistances c to_register)

/-- The list of per-pole proximities `Proximity(pos, |dist|)` of a pole list
at a point — the values over which `distance_to_surrogate_poles_border`
takes its minimum. -/
def poleProxList (cent : Point) (poles : List Circle) : List Proximity :=
  poles.map fun p =>
    let pd := p.distance_from_border cent
    Proximity.new pd.1 |pd.2|

/-- A concrete cell used to witness the HPCell theorems at a concrete
input: centroid (1,1), radius 1, current universal proximity (Exterior, 5). -/
def wCell : HPCell :=
  HPCell.mk (AARectangle.mk 0 0 2 2) (Point.mk 1 1) 1
    (Proximity.mk GeoPosition.Exterior ((5 : ℚ) : WithTop ℚ), HazardEntity.BinOuter)
    (Proximity.mk GeoPosition.Exterior ((5 : ℚ) : WithTop ℚ), HazardEntity.BinOuter)
    (List.replicate N_QUALITIES Proximity.default)

/-- A concrete interior-presence hazard (a placed item) with a one-pole
surrogate whose pole border lies at signed distance 1 from every point. -/
def wHaz : Hazard :=
  Hazard.mk (HazardEntity.PlacedItem 0)
    (HazardShape.mk (fun _ => (GeoPosition.Exterior, 1))
      (Surrogate.mk [Circle.mk (fun _ => (GeoPosition.Exterior, 1))]
        (Circle.mk (fun _ => (GeoPosition.Exterior, 1)))))
    true

/-- A concrete exterior-presence hazard (the bin boundary). -/
def wHazExt : Hazard :=
  Hazard.mk HazardEntity.BinOuter
    (HazardShape.mk (fun _ => (GeoPosition.Exterior, 1))
      (Surrogate.mk [Circle.mk (fun _ => (GeoPosition.Exterior, 1))]
        (Circle.mk (fun _ => (GeoPosition.Exterior, 1)))))
    true

/-- A concrete cell that is inside a hazard: current universal proximity
(Interior, 3). -/
def cexCell : HPCell :=
  HPCell.mk (AARectangle.mk 0 0 2 2) (Point.mk 1 1) 1
    (Proximity.mk GeoPosition.Interior ((3 : ℚ) : WithTop ℚ),
      HazardEntity.BinHole 0)
    (Proximity.mk GeoPosition.Interior ((3 : ℚ) : WithTop ℚ),
      HazardEntity.BinHole 0)
    (List.replicate N_QUALITIES Proximity.default)

/-- A concrete active interior-presence hazard whose bounding circle holds
the centroid at depth 5 (signed distance -5) and whose single pole holds it
at depth 4: the bounding proximity (Interior, 5) is a sound lower bound for
the pole proximity (Interior, 4) under the Proximity order, while its `|d|`
is larger than the cell's current `|d| = 3`. -/
def cexHaz : Hazard :=
  Hazard.mk (HazardEntity.PlacedItem 1)
    (HazardShape.mk (fun _ => (GeoPosition.Interior, 4))
      (Surrogate.mk [Circle.mk (fun _ => (GeoPosition.Interior, 4))]
        (Circle.mk (fun _ => (GeoPosition.Interior, -5)))))
    true

/-- The per-cell invariant of spec I2: the dynamic universal proximity is at
least as close as the static baseline. -/
def ProxInv (c : HPCell) : Prop :=
  Proximity.le c.uni_haz_prox.1 c.static_uni_haz_prox.1 = true

/-- All HPCell fields other than `uni_haz_prox` agree. -/
def sameFrame (a b : HPCell) : Prop :=
  a.bbox = b.bbox ∧ a.centroid = b.centroid ∧ a.radius = b.radius ∧
  a.static_uni_haz_prox = b.static_uni_haz_prox ∧ a.qz_haz_prox = b.qz_haz_prox

/-- Modelled from the spec: the identity of a placed item — item id plus its
decomposed transformation (`PlacedItemUID`, used by strip_packing.rs). -/
structure PlacedItemUID where
  item_id : Nat
  d_transf : DTransformation
deriving DecidableEq

/-- Modelled from the spec (section 4.6): the CDE collision queries consumed
by `SPProblem::modify_strip_width`, as oracles over the current layout
(represented by its list of placed items) and the candidate placement. The
CDE itself is not part of the provided sources. -/
structure CDEQueries where
  surrogate_collides : List PlacedItemUID → PlacedItemUID → Bool
  shape_collides : List PlacedItemUID → PlacedItemUID → Bool

/-- The body of the re-placement loop of `SPProblem::modify_strip_width`
(strip_packing.rs, lines 57-74): the item is placed only when
`surrogate_collides` and then `shape_collides` both return false; otherwise
the layout is left untouched and the item is dropped. -/
def replaceItemStep (cde : CDEQueries) (layout : List PlacedItemUID)
    (p_uid : PlacedItemUID) : List PlacedItemUID :=
  if cde.surrogate_collides layout p_uid then layout
  else if cde.shape_collides layout p_uid then layout
  else layout ++ [p_uid]

/-- The re-placement loop of `SPProblem::modify_strip_width`
(strip_packing.rs, lines 50-75): the new layout starts empty and each
previously placed item is re-placed in order through `replaceItemStep`. -/
def modify_strip_width_replacements (cde : CDEQueries)
    (old_p_uids : List PlacedItemUID) : List PlacedItemUID :=
  old_p_uids.foldl (replaceItemStep cde) []

theorem Proximity.le_refl_prox (a : Proximity) : Proximity.le a a = true := by
  cases a with
  | mk p d => cases p <;> simp [Proximity.le]

theorem Proximity.le_total_prox (a b : Proximity) :
    Proximity.le a b = true ∨ Proximity.le b a = true := by
  cases a with
  | mk pa da =>
    cases b with
    | mk pb db =>
      cases pa <;> cases pb <;> simp [Proximity.le] <;> exact le_total _ _

theorem Proximity.le_trans_prox {a b c : Proximity} (hab : Proximity.le a b = true)
    (hbc : Proximity.le b c = true) : Proximity.le a c = true := by
  cases a with
  | mk pa da =>
    cases b with
    | mk pb db =>
      cases c with
      | mk pc dc =>
        cases pa <;> cases pb <;> cases pc <;>
          simp [Proximity.le] at * <;>
          first
          | exact le_trans hbc hab
          | exact le_trans hab hbc

theorem Proximity.le_antisymm_prox {a b : Proximity} (hab : Proximity.le a b = true)
    (hba : Proximity.le b a = true) : a = b := by
  cases a with
  | mk pa da =>
    cases b with
    | mk pb db =>
      cases pa <;> cases pb <;> simp_all [Proximity.le] <;>
        first
        | exact le_antisymm hba hab
        | exact le_antisymm hab hba

theorem Proximity.lt_eq_not_le (a b : Proximity) :
    Proximity.lt a b = !(Proximity.le b a) := rfl

theorem Proximity.le_of_lt_prox {a b : Proximity} (h : Proximity.lt a b = true) :
    Proximity.le a b = true := by
  rcases Proximity.le_total_prox a b with h1 | h1
  · exact h1
  · simp [Proximity.lt, h1] at h

theorem Proximity.not_lt_of_le_prox {a b : Proximity} (h : Proximity.le a b = true) :
    Proximity.lt b a = false := by
  simp [Proximity.lt, h]

theorem Proximity.le_of_not_lt_prox {a b : Proximity} (h : Proximity.lt a b = false) :
    Proximity.le b a = true := by
  simpa [Proximity.lt] using h

theorem Proximity.lt_of_not_le_prox {a b : Proximity} (h : Proximity.le a b = false) :
    Proximity.lt b a = true := by
  simp [Proximity.lt, h]

theorem Proximity.minP_eq_or (a b : Proximity) :
    Proximity.minP a b = a ∨ Proximity.minP a b = b := by
  unfold Proximity.minP; split <;> simp

theorem Proximity.minP_le_left (a b : Proximity) :
    Proximity.le (Proximity.minP a b) a = true := by
  unfold Proximity.minP; split
  · exact Proximity.le_refl_prox a
  · next h =>
      rcases Proximity.le_total_prox a b with h1 | h1
      · simp [h1] at h
      · exact h1

theorem Proximity.minP_le_right (a b : Proximity) :
    Proximity.le (Proximity.minP a b) b = true := by
  unfold Proximity.minP; split
  · next h => exact h
  · exact Proximity.le_refl_prox b

/-- The fold of `minP` over a list: the result is an element of the list
(headed by the seed) and is `≤` every element. -/
theorem Proximity.foldl_minP_spec (p : Proximity) (l : List Proximity) :
    (l.foldl Proximity.minP p) ∈ p :: l ∧
    Proximity.le (l.foldl Proximity.minP p) p = true ∧
    ∀ x ∈ l, Proximity.le (l.foldl Proximity.minP p) x = true := by
  induction l generalizing p with
  | nil => simp [Proximity.le_refl_prox]
  | cons q qs ih =>
    obtain ⟨hmem, hle, hall⟩ := ih (Proximity.minP p q)
    refine ⟨?_, ?_, ?_⟩
    · simp only [List.foldl_cons]
      simp only [List.mem_cons] at hmem ⊢
      rcases hmem with h | h
      · rcases Proximity.minP_eq_or p q with h2 | h2 <;> rw [h, h2] <;> tauto
      · tauto
    · exact Proximity.le_trans_prox hle (Proximity.minP_le_left p q)
    · intro x hx
      simp only [List.mem_cons] at hx
      rcases hx with rfl | hx
      · exact Proximity.le_trans_prox hle (Proximity.minP_le_right p x)
      · exact hall x hx

theorem swapRemove_length_cons {α : Type} (x : α) (xs : List α) (i : Nat) :
    (swapRemove (x :: xs) i).length = xs.length := by
  unfold swapRemove
  match h : (x :: xs).getLast? with
  | none => simp at h
  | some last => simp [List.length_set, List.length_dropLast]

theorem swapRemove_subset {α : Type} (l : List α) (i : Nat) :
    ∀ y ∈ swapRemove l i, y ∈ l := by
  intro y hy
  unfold swapRemove at hy
  match h : l.getLast? with
  | none => simpa [h] using hy
  | some last =>
    rw [h] at hy
    rcases List.mem_or_eq_of_mem_set hy with h1 | h1
    · exact List.dropLast_subset l h1
    · subst h1
      have hmem : y ∈ l.getLast? := Option.mem_def.2 h
      rcases List.mem_getLast?_eq_getLast hmem with ⟨hne, heq⟩
      rw [heq]
      exact List.getLast_mem hne

theorem optProxLe_refl (a : Option Proximity) : optProxLe a a = true := by
  cases a <;> simp [optProxLe, Proximity.le_refl_prox]

theorem optProxLe_trans {a b c : Option Proximity} (hab : optProxLe a b = true)
    (hbc : optProxLe b c = true) : optProxLe a c = true := by
  cases a <;> cases b <;> cases c <;> simp_all [optProxLe]
  exact Proximity.le_trans_prox hab hbc

theorem optProxLe_total (a b : Option Proximity) :
    optProxLe a b = true ∨ optProxLe b a = true := by
  cases a <;> cases b <;> simp [optProxLe]
  exact Proximity.le_total_prox _ _

theorem optProxLe_of_lt {a b : Option Proximity} (h : optProxLt a b = true) :
    optProxLe a b = true := by
  rcases optProxLe_total a b with h1 | h1
  · exact h1
  · simp [optProxLt, h1] at h

theorem optProxLe_of_not_lt {a b : Option Proximity} (h : optProxLt a b = false) :
    optProxLe b a = true := by
  simpa [optProxLt] using h

/-- The entry selected by the `min_by_key` fold is the running best or one of
the scanned entries. -/
theorem minByKeyAux_mem (ys : List BoundEntry) :
    ∀ (best : Nat × BoundEntry) (i : Nat),
      (minByKeyAux best i ys).2 = best.2 ∨ (minByKeyAux best i ys).2 ∈ ys := by
  induction ys with
  | nil => intro best i; simp [minByKeyAux]
  | cons y ys ih =>
    intro best i
    simp only [minByKeyAux]
    rcases ih (if optProxLt y.2 best.2.2 then (i, y) else best) (i + 1) with h | h
    · rw [h]
      split
      · simp
      · simp
    · simp [h]

/-- The entry selected by the `min_by_key` fold has a key `≤` the running
best's key and `≤` every scanned entry's key. -/
theorem minByKeyAux_min (ys : List BoundEntry) :
    ∀ (best : Nat × BoundEntry) (i : Nat),
      optProxLe (minByKeyAux best i ys).2.2 best.2.2 = true ∧
      ∀ y ∈ ys, optProxLe (minByKeyAux best i ys).2.2 y.2 = true := by
  induction ys with
  | nil => intro best i; simp [minByKeyAux, optProxLe_refl]
  | cons y ys ih =>
    intro best i
    obtain ⟨h1, h2⟩ := ih (if optProxLt y.2 best.2.2 then (i, y) else best) (i + 1)
    simp only [minByKeyAux]
    constructor
    · by_cases hlt : optProxLt y.2 best.2.2 = true
      · simp only [hlt, if_pos] at h1
        simp only [hlt]
        simp only [if_pos]
        exact optProxLe_trans h1 (optProxLe_of_lt hlt)
      · simp only [Bool.not_eq_true] at hlt
        simpa [hlt] using h1
    · intro z hz
      simp only [List.mem_cons] at hz
      rcases hz with rfl | hz
      · by_cases hlt : optProxLt z.2 best.2.2 = true
        · simpa [hlt] using h1
        · simp only [Bool.not_eq_true] at hlt
          simp only [hlt] at h1 ⊢
          exact optProxLe_trans (by simpa using h1) (optProxLe_of_not_lt hlt)
      · by_cases hlt : optProxLt y.2 best.2.2 = true <;>
          simp only [Bool.not_eq_true] at hlt <;> simp only [hlt] at h2 ⊢ <;>
          exact h2 z hz

theorem sameFrame_refl (c : HPCell) : sameFrame c c :=
  ⟨rfl, rfl, rfl, rfl, rfl⟩

theorem sameFrame_trans {a b c : HPCell} (h1 : sameFrame a b) (h2 : sameFrame b c) :
    sameFrame a c := by
  obtain ⟨e1, e2, e3, e4, e5⟩ := h1
  obtain ⟨f1, f2, f3, f4, f5⟩ := h2
  exact ⟨e1.trans f1, e2.trans f2, e3.trans f3, e4.trans f4, e5.trans f5⟩

/-- `register_hazard` on an interior-presence hazard with a computed pole
proximity: the exact three-way outcome of hp_cell.rs lines 122-135. -/
theorem register_hazard_of_interior (c : HPCell) (H : Hazard) (p : Proximity)
    (hpres : H.entity.presence = GeoPosition.Interior)
    (hp : distance_to_surrogate_poles_border c H.shape.surrogate.poles = some p) :
    HPCell.register_hazard c H =
      if Proximity.lt p c.uni_haz_prox.1 = true then
        some ({ c with uni_haz_prox := (p, H.entity) }, HPCellUpdate.Affected)
      else if p.distance_from_border >
          c.uni_haz_prox.1.distance_from_border + ((2 * c.radius : ℚ) : WithTop ℚ) then
        some (c, HPCellUpdate.Boundary)
      else some (c, HPCellUpdate.Unaffected) := by
  unfold HPCell.register_hazard
  rw [hpres, hp]
  simp only [HPCell.universal_hazard_proximity]
  by_cases hlt : Proximity.lt p c.uni_haz_prox.1 = true
  · simp [Proximity.cmp, hlt]
  · simp only [Bool.not_eq_true] at hlt
    by_cases hgt : Proximity.lt c.uni_haz_prox.1 p = true <;>
      simp [Proximity.cmp, hlt, hgt]

/-- `register_hazard` on an exterior-presence hazard hits the
`unreachable!`. -/
theorem register_hazard_of_exterior (c : HPCell) (H : Hazard)
    (hpres : H.entity.presence = GeoPosition.Exterior) :
    HPCell.register_hazard c H = none := by
  unfold HPCell.register_hazard
  rw [hpres]

/-- Any successful `register_hazard` either strictly improves the universal
proximity (Affected) or leaves the cell untouched. -/
theorem register_hazard_cases {c cH : HPCell} {H : Hazard} {u : HPCellUpdate}
    (h : HPCell.register_hazard c H = some (cH, u)) :
    (∃ p, distance_to_surrogate_poles_border c H.shape.surrogate.poles = some p ∧
      Proximity.lt p c.uni_haz_prox.1 = true ∧
      cH = { c with uni_haz_prox := (p, H.entity) } ∧ u = HPCellUpdate.Affected) ∨
    (cH = c ∧ u ≠ HPCellUpdate.Affected) := by
  cases hpres : H.entity.presence with
  | Exterior => rw [register_hazard_of_exterior c H hpres] at h; exact absurd h (by simp)
  | Interior =>
    cases hp : distance_to_surrogate_poles_border c H.shape.surrogate.poles with
    | none =>
      unfold HPCell.register_hazard at h
      rw [hpres, hp] at h
      exact absurd h (by simp)
    | some p =>
      rw [register_hazard_of_interior c H p hpres hp] at h
      by_cases hlt : Proximity.lt p c.uni_haz_prox.1 = true
      · rw [if_pos hlt] at h
        simp only [Option.some.injEq, Prod.mk.injEq] at h
        exact Or.inl ⟨p, rfl, hlt, h.1.symm, h.2.symm⟩
      · rw [if_neg hlt] at h
        right
        split at h <;> simp only [Option.some.injEq, Prod.mk.injEq] at h <;>
          exact ⟨h.1.symm, by rw [← h.2]; simp⟩

/-- `register_hazard` touches only `uni_haz_prox`. -/
theorem register_hazard_frame {c cH : HPCell} {H : Hazard} {u : HPCellUpdate}
    (h : HPCell.register_hazard c H = some (cH, u)) : sameFrame c cH := by
  rcases register_hazard_cases h with ⟨p, _, _, rfl, _⟩ | ⟨rfl, _⟩
  · exact ⟨rfl, rfl, rfl, rfl, rfl⟩
  · exact sameFrame_refl _

/-- `register_hazard` preserves the I2 invariant. -/
theorem register_hazard_inv {c cH : HPCell} {H : Hazard} {u : HPCellUpdate}
    (h : HPCell.register_hazard c H = some (cH, u)) (hinv : ProxInv c) : ProxInv cH := by
  rcases register_hazard_cases h with ⟨p, _, hlt, rfl, _⟩ | ⟨rfl, _⟩
  · exact Proximity.le_trans_prox (Proximity.le_of_lt_prox hlt) hinv
  · exact hinv

/-- The registration loop touches only `uni_haz_prox`. -/
theorem registerLoopF_frame :
    ∀ (fuel : Nat) (l : List BoundEntry) (c c' : HPCell),
      registerLoopF fuel c l = some c' → sameFrame c c' := by
  intro fuel
  induction fuel with
  | zero =>
    intro l c c' h
    cases l <;> simp only [registerLoopF, Option.some.injEq] at h <;>
      exact h ▸ sameFrame_refl c
  | succ n ih =>
    intro l c c' h
    cases l with
    | nil =>
      simp only [registerLoopF, Option.some.injEq] at h
      exact h ▸ sameFrame_refl c
    | cons x xs =>
      simp only [registerLoopF] at h
      cases hk : (minByKeyAux (0, x) 1 xs).2.2 with
      | none =>
        simp only [hk] at h
        cases hr : HPCell.register_hazard c (minByKeyAux (0, x) 1 xs).2.1 with
        | none => simp only [hr] at h; exact absurd h (by simp)
        | some cu =>
          obtain ⟨c1, u1⟩ := cu
          simp only [hr] at h
          exact sameFrame_trans (register_hazard_frame hr) (ih _ _ _ h)
      | some bp =>
        simp only [hk] at h
        by_cases hle : Proximity.le bp c.uni_haz_prox.1 = true
        · rw [if_pos hle] at h
          cases hr : HPCell.register_hazard c (minByKeyAux (0, x) 1 xs).2.1 with
          | none => simp only [hr] at h; exact absurd h (by simp)
          | some cu =>
            obtain ⟨c1, u1⟩ := cu
            simp only [hr] at h
            exact sameFrame_trans (register_hazard_frame hr) (ih _ _ _ h)
        · rw [if_neg hle] at h
          simp only [Option.some.injEq] at h
          exact h ▸ sameFrame_refl c

/-- The registration loop preserves the I2 invariant. -/
theorem registerLoopF_inv :
    ∀ (fuel : Nat) (l : List BoundEntry) (c c' : HPCell),
      registerLoopF fuel c l = some c' → ProxInv c → ProxInv c' := by
  intro fuel
  induction fuel with
  | zero =>
    intro l c c' h hinv
    cases l <;> simp only [registerLoopF, Option.some.injEq] at h <;> exact h ▸ hinv
  | succ n ih =>
    intro l c c' h hinv
    cases l with
    | nil =>
      simp only [registerLoopF, Option.some.injEq] at h
      exact h ▸ hinv
    | cons x xs =>
      simp only [registerLoopF] at h
      cases hk : (minByKeyAux (0, x) 1 xs).2.2 with
      | none =>
        simp only [hk] at h
        cases hr : HPCell.register_hazard c (minByKeyAux (0, x) 1 xs).2.1 with
        | none => simp only [hr] at h; exact absurd h (by simp)
        | some cu =>
          obtain ⟨c1, u1⟩ := cu
          simp only [hr] at h
          exact ih _ _ _ h (register_hazard_inv hr hinv)
      | some bp =>
        simp only [hk] at h
        by_cases hle : Proximity.le bp c.uni_haz_prox.1 = true
        · rw [if_pos hle] at h
          cases hr : HPCell.register_hazard c (minByKeyAux (0, x) 1 xs).2.1 with
          | none => simp only [hr] at h; exact absurd h (by simp)
          | some cu =>
            obtain ⟨c1, u1⟩ := cu
            simp only [hr] at h
            exact ih _ _ _ h (register_hazard_inv hr hinv)
        · rw [if_neg hle] at h
          simp only [Option.some.injEq] at h
          exact h ▸ hinv

/-- `register_hazards` touches only `uni_haz_prox`. -/
theorem register_hazards_frame {c c' : HPCell} {l : List Hazard}
    (h : HPCell.register_hazards c l = some c') : sameFrame c c' :=
  registerLoopF_frame _ _ _ _ h

/-- `register_hazards` preserves the I2 invariant. -/
theorem register_hazards_inv {c c' : HPCell} {l : List Hazard}
    (h : HPCell.register_hazards c l = some c') (hinv : ProxInv c) : ProxInv c' :=
  registerLoopF_inv _ _ _ _ h hinv

/-- `deregister_hazards` touches only `uni_haz_prox`. -/
theorem deregister_hazards_frame {c c' : HPCell} {D : List HazardEntity}
    {R : List Hazard} {u : HPCellUpdate}
    (h : HPCell.deregister_hazards c D R = some (c', u)) : sameFrame c c' := by
  unfold HPCell.deregister_hazards at h
  split at h
  · cases hr : HPCell.register_hazards
        { c with uni_haz_prox := c.static_uni_haz_prox } R with
    | none => simp only [hr] at h; exact absurd h (by simp)
    | some c2 =>
      simp only [hr, Option.some.injEq, Prod.mk.injEq] at h
      have hf := register_hazards_frame hr
      exact h.1 ▸ hf
  · simp only [Option.some.injEq, Prod.mk.injEq] at h
    exact h.1 ▸ sameFrame_refl c

/-- `deregister_hazards` preserves (re-establishes) the I2 invariant. -/
theorem deregister_hazards_inv {c c' : HPCell} {D : List HazardEntity}
    {R : List Hazard} {u : HPCellUpdate}
    (h : HPCell.deregister_hazards c D R = some (c', u)) (hinv : ProxInv c) :
    ProxInv c' := by
  unfold HPCell.deregister_hazards at h
  split at h
  · cases hr : HPCell.register_hazards
        { c with uni_haz_prox := c.static_uni_haz_prox } R with
    | none => simp only [hr] at h; exact absurd h (by simp)
    | some c2 =>
      simp only [hr, Option.some.injEq, Prod.mk.injEq] at h
      have hstart : ProxInv { c with uni_haz_prox := c.static_uni_haz_prox } :=
        Proximity.le_refl_prox _
      exact h.1 ▸ register_hazards_inv hr hstart
  · simp only [Option.some.injEq, Prod.mk.injEq] at h
    exact h.1 ▸ hinv

/-- A cell built by `HPCell::new` starts with its dynamic universal proximity
equal to the static one. -/
theorem new_uni_eq_static {bbox : AARectangle} {radius : ℚ} {hs : List Hazard}
    {c : HPCell} (h : HPCell.new bbox radius hs = some c) :
    c.uni_haz_prox = c.static_uni_haz_prox := by
  unfold HPCell.new at h
  cases hf : List.foldlM (staticHazardStep bbox.centroid)
      ((Proximity.default, HazardEntity.BinOuter),
        List.replicate N_QUALITIES Proximity.default) hs with
  | none => simp only [hf] at h; exact absurd h (by simp)
  | some acc =>
    cases acc with
    | mk su qz =>
      simp only [hf, Option.some.injEq] at h
      rw [← h]

/-- `distance_to_surrogate_poles_border` of a nonempty pole list succeeds and
computes the minimum, under the Proximity order, of the per-pole
proximities. -/
theorem dtspb_spec (c : HPCell) (poles : List Circle) (hne : poles ≠ []) :
    ∃ p, distance_to_surrogate_poles_border c poles = some p ∧
      p ∈ poleProxList c.centroid poles ∧
      ∀ x ∈ poleProxList c.centroid poles, Proximity.le p x = true := by
  have heq : distance_to_surrogate_poles_border c poles =
      match poleProxList c.centroid poles with
      | [] => none
      | q :: qs => some (qs.foldl Proximity.minP q) := rfl
  cases hm : poleProxList c.centroid poles with
  | nil =>
    exact absurd (List.map_eq_nil_iff.mp hm) hne
  | cons q qs =>
    obtain ⟨hmem, hle, hall⟩ := Proximity.foldl_minP_spec q qs
    refine ⟨qs.foldl Proximity.minP q, ?_, hmem, ?_⟩
    · rw [heq, hm]
    · intro x hx
      simp only [List.mem_cons] at hx
      rcases hx with rfl | hx
      · exact hle
      · exact hall x hx

/-- C1: for an active interior-presence hazard with a nonempty surrogate pole
list, `register_hazard` computes `p` as the minimum over the poles of
`Proximity(pos, |signed distance from the centroid to the pole border|)`;
if `p < uni_haz_prox.0` it installs `(p, H.entity)` and returns Affected;
otherwise it returns Boundary exactly when `p.|d| > uni_haz_prox.0.|d| +
2·radius` and Unaffected else, leaving the cell unchanged in both
non-Affected cases. -/
theorem claim_C1_register_hazard (c : HPCell) (H : Hazard)
    (hact : H.is_active = true)
    (hpres : H.entity.presence = GeoPosition.Interior)
    (hpoles : H.shape.surrogate.poles ≠ []) :
    ∃ p, distance_to_surrogate_poles_border c H.shape.surrogate.poles = some p ∧
      p ∈ poleProxList c.centroid H.shape.surrogate.poles ∧
      (∀ x ∈ poleProxList c.centroid H.shape.surrogate.poles,
        Proximity.le p x = true) ∧
      (if Proximity.lt p c.uni_haz_prox.1 = true then
        HPCell.register_hazard c H =
          some ({ c with uni_haz_prox := (p, H.entity) }, HPCellUpdate.Affected)
      else if p.distance_from_border >
          c.uni_haz_prox.1.distance_from_border + ((2 * c.radius : ℚ) : WithTop ℚ) then
        HPCell.register_hazard c H = some (c, HPCellUpdate.Boundary)
      else
        HPCell.register_hazard c H = some (c, HPCellUpdate.Unaffected)) := by
  obtain ⟨p, hp, hmem, hmin⟩ := dtspb_spec c H.shape.surrogate.poles hpoles
  refine ⟨p, hp, hmem, hmin, ?_⟩
  by_cases hlt : Proximity.lt p c.uni_haz_prox.1 = true
  · rw [if_pos hlt, register_hazard_of_interior c H p hpres hp, if_pos hlt]
  · rw [if_neg hlt]
    by_cases hb : p.distance_from_border >
        c.uni_haz_prox.1.distance_from_border + ((2 * c.radius : ℚ) : WithTop ℚ)
    · rw [if_pos hb, register_hazard_of_interior c H p hpres hp, if_neg hlt, if_pos hb]
    · rw [if_neg hb, register_hazard_of_interior c H p hpres hp, if_neg hlt, if_neg hb]

/-- Witness for C1 at the concrete cell `wCell` and hazard `wHaz`. -/
theorem claim_C1_witness :
    ∃ p, distance_to_surrogate_poles_border wCell wHaz.shape.surrogate.poles = some p ∧
      p ∈ poleProxList wCell.centroid wHaz.shape.surrogate.poles ∧
      (∀ x ∈ poleProxList wCell.centroid wHaz.shape.surrogate.poles,
        Proximity.le p x = true) ∧
      (if Proximity.lt p wCell.uni_haz_prox.1 = true then
        HPCell.register_hazard wCell wHaz =
          some ({ wCell with uni_haz_prox := (p, wHaz.entity) }, HPCellUpdate.Affected)
      else if p.distance_from_border >
          wCell.uni_haz_prox.1.distance_from_border +
            ((2 * wCell.radius : ℚ) : WithTop ℚ) then
        HPCell.register_hazard wCell wHaz = some (wCell, HPCellUpdate.Boundary)
      else
        HPCell.register_hazard wCell wHaz = some (wCell, HPCellUpdate.Unaffected)) :=
  claim_C1_register_hazard wCell wHaz (by decide) (by decide)
    (by simp [wHaz])

/-- C3: the I2 invariant `uni_haz_prox.0 ≤ static_uni_haz_prox.0` holds
immediately after `HPCell::new` and is preserved by `register_hazard`,
`register_hazards` and `deregister_hazards`. -/
theorem claim_C3_uni_le_static :
    (∀ (bbox : AARectangle) (radius : ℚ) (hs : List Hazard) (c : HPCell),
      HPCell.new bbox radius hs = some c → ProxInv c) ∧
    (∀ (c cH : HPCell) (H : Hazard) (u : HPCellUpdate), ProxInv c →
      HPCell.register_hazard c H = some (cH, u) → ProxInv cH) ∧
    (∀ (c c' : HPCell) (l : List Hazard), ProxInv c →
      HPCell.register_hazards c l = some c' → ProxInv c') ∧
    (∀ (c c' : HPCell) (D : List HazardEntity) (R : List Hazard) (u : HPCellUpdate),
      ProxInv c → HPCell.deregister_hazards c D R = some (c', u) → ProxInv c') := by
  refine ⟨?_, ?_, ?_, ?_⟩
  · intro bbox radius hs c h
    unfold ProxInv
    rw [new_uni_eq_static h]
    exact Proximity.le_refl_prox _
  · intro c cH H u hinv h
    exact register_hazard_inv h hinv
  · intro c c' l hinv h
    exact register_hazards_inv h hinv
  · intro c c' D R u hinv h
    exact deregister_hazards_inv h hinv

/-- Witness for C3: registering the concrete hazard `wHaz` on `wCell`
strictly improves the proximity and the invariant still holds. -/
theorem claim_C3_witness :
    ProxInv { wCell with uni_haz_prox :=
      (Proximity.mk GeoPosition.Exterior ((1 : ℚ) : WithTop ℚ),
        HazardEntity.PlacedItem 0) } :=
  claim_C3_uni_le_static.2.1 wCell _ wHaz HPCellUpdate.Affected
    (by unfold ProxInv; decide) (by decide)

/-- C6: no operation after construction changes `qz_haz_prox`,
`static_uni_haz_prox`, `bbox`, `centroid` or `radius`: `register_hazard`,
`register_hazards` and `deregister_hazards` may modify only
`uni_haz_prox`. -/
theorem claim_C6_only_uni_mutates :
    (∀ (c cH : HPCell) (H : Hazard) (u : HPCellUpdate),
      HPCell.register_hazard c H = some (cH, u) → sameFrame c cH) ∧
    (∀ (c c' : HPCell) (l : List Hazard),
      HPCell.register_hazards c l = some c' → sameFrame c c') ∧
    (∀ (c c' : HPCell) (D : List HazardEntity) (R : List Hazard) (u : HPCellUpdate),
      HPCell.deregister_hazards c D R = some (c', u) → sameFrame c c') := by
  refine ⟨?_, ?_, ?_⟩
  · intro c cH H u h
    exact register_hazard_frame h
  · intro c c' l h
    exact register_hazards_frame h
  · intro c c' D R u h
    exact deregister_hazards_frame h

/-- Witness for C6 at the concrete registration of `wHaz` on `wCell`. -/
theorem claim_C6_witness :
    sameFrame wCell { wCell with uni_haz_prox :=
      (Proximity.mk GeoPosition.Exterior ((1 : ℚ) : WithTop ℚ),
        HazardEntity.PlacedItem 0) } :=
  claim_C6_only_uni_mutates.1 wCell _ wHaz HPCellUpdate.Affected (by decide)

/-- Every entry of the pre-screening work list comes from an active hazard of
the input, with a `none` key exactly for exterior presence and the
bounding-circle proximity key for interior presence. -/
theorem boundingPoleDistances_mem {c : HPCell} {l : List Hazard} {e : BoundEntry}
    (he : e ∈ boundingPoleDistances c l) :
    e.1 ∈ l ∧ e.1.is_active = true ∧
      ((e.1.entity.presence = GeoPosition.Exterior ∧ e.2 = none) ∨
       (e.1.entity.presence = GeoPosition.Interior ∧
         e.2 = some (boundProxAt c.centroid e.1))) := by
  unfold boundingPoleDistances at he
  rcases List.mem_map.mp he with ⟨haz, hmem, heq⟩
  have hfa := List.mem_filter.mp hmem
  cases hpres : haz.entity.presence with
  | Exterior =>
    rw [hpres] at heq
    refine ⟨?_, ?_, Or.inl ⟨?_, ?_⟩⟩ <;> rw [← heq] <;>
      simp [hfa.1, hfa.2, hpres]
  | Interior =>
    rw [hpres] at heq
    refine ⟨?_, ?_, Or.inr ⟨?_, ?_⟩⟩ <;> rw [← heq] <;>
      simp [hfa.1, hfa.2, hpres, boundProxAt]

/-- An active exterior-presence hazard contributes the entry `(H, none)` to
the pre-screening work list. -/
theorem boundingPoleDistances_mem_of_exterior {c : HPCell} {l : List Hazard}
    {H : Hazard} (hmem : H ∈ l) (hact : H.is_active = true)
    (hpres : H.entity.presence = GeoPosition.Exterior) :
    (H, (none : Option Proximity)) ∈ boundingPoleDistances c l := by
  unfold boundingPoleDistances
  refine List.mem_map.mpr ⟨H, List.mem_filter.mpr ⟨hmem, hact⟩, ?_⟩
  rw [hpres]

/-- A key that is `≤` `none` in the option order is `none`. -/
theorem optProxLe_none_eq {k : Option Proximity}
    (h : optProxLe k none = true) : k = none := by
  cases k with
  | none => rfl
  | some a => simp [optProxLe] at h

/-- C7: registering a dynamic hazard with Exterior presence fails fast:
`register_hazard` aborts with an error (no proximity computed, no mutation),
and the batched `register_hazards` on a list containing such an active
hazard aborts as well. -/
theorem claim_C7_exterior_fail_fast (c : HPCell) (H : Hazard) (l : List Hazard)
    (hpres : H.entity.presence = GeoPosition.Exterior)
    (hmem : H ∈ l) (hact : H.is_active = true) :
    HPCell.register_hazard c H = none ∧ HPCell.register_hazards c l = none := by
  refine ⟨register_hazard_of_exterior c H hpres, ?_⟩
  unfold HPCell.register_hazards registerLoop
  have hentry := boundingPoleDistances_mem_of_exterior (c := c) hmem hact hpres
  cases hb : boundingPoleDistances c l with
  | nil => rw [hb] at hentry; exact absurd hentry (by simp)
  | cons x xs =>
    rw [hb] at hentry
    simp only [List.length_cons, registerLoopF]
    have hminmem := minByKeyAux_mem xs (0, x) 1
    have hminkey := minByKeyAux_min xs (0, x) 1
    have hknone : (minByKeyAux (0, x) 1 xs).2.2 = none := by
      apply optProxLe_none_eq
      rcases List.mem_cons.mp hentry with hx | hx
      · subst hx
        exact hminkey.1
      · exact hminkey.2 _ hx
    have hpresm : (minByKeyAux (0, x) 1 xs).2.1.entity.presence =
        GeoPosition.Exterior := by
      have hm2 : (minByKeyAux (0, x) 1 xs).2 ∈ boundingPoleDistances c l := by
        rw [hb]
        rcases hminmem with hx | hx
        · rw [hx]; exact List.mem_cons_self x xs
        · exact List.mem_cons_of_mem x hx
      rcases (boundingPoleDistances_mem hm2).2.2 with ⟨hp, _⟩ | ⟨_, hk⟩
      · exact hp
      · rw [hknone] at hk; exact absurd hk (by simp)
    rw [hknone, register_hazard_of_exterior c _ hpresm]

/-- Witness for C7 at the concrete exterior hazard `wHazExt` on `wCell`. -/
theorem claim_C7_witness :
    HPCell.register_hazard wCell wHazExt = none ∧
    HPCell.register_hazards wCell [wHazExt] = none :=
  claim_C7_exterior_fail_fast wCell wHazExt [wHazExt] (by decide)
    (List.mem_singleton.mpr rfl) (by decide)

/-- `findIdx?` returns the first index satisfying the predicate. -/
theorem findIdx_first {α : Type} (p : α → Bool) :
    ∀ (l : List α) (q : Nat) (hq : q < l.length),
      p (l.get ⟨q, hq⟩) = true →
      (∀ (j : Nat) (hj : j < q), p (l.get ⟨j, Nat.lt_trans hj hq⟩) = false) →
      l.findIdx? p = some q := by
  intro l
  induction l with
  | nil => intro q hq; exact absurd hq (by simp)
  | cons x xs ih =>
    intro q hq hp hfirst
    cases q with
    | zero =>
      rw [List.findIdx?_cons, if_pos (show p x = true from hp)]
    | succ n =>
      have hx : p x = false := hfirst 0 (Nat.succ_pos n)
      rw [List.findIdx?_cons, if_neg (by simp [hx]), List.findIdx?_succ]
      have hn : n < xs.length := Nat.lt_of_succ_lt_succ hq
      rw [ih n hn hp (fun j hj => hfirst (j + 1) (Nat.succ_lt_succ hj))]
      rfl

/-- C5: `value()` is `uni_haz_prox.0.|d|²` times the quality-correction
factor: `q / N_QUALITIES` for the smallest quality index `q` whose
quality-zone proximity is Interior, and `1` when no entry is Interior. -/
theorem claim_C5_value (c : HPCell) :
    ((∀ x ∈ c.qz_haz_prox, x.position ≠ GeoPosition.Interior) →
      HPCell.value c = c.uni_haz_prox.1.distance_from_border *
        c.uni_haz_prox.1.distance_from_border) ∧
    (∀ (q : Nat) (hq : q < c.qz_haz_prox.length),
      (c.qz_haz_prox.get ⟨q, hq⟩).position = GeoPosition.Interior →
      (∀ (j : Nat) (hj : j < q),
        (c.qz_haz_prox.get ⟨j, Nat.lt_trans hj hq⟩).position ≠ GeoPosition.Interior) →
      HPCell.value c = c.uni_haz_prox.1.distance_from_border *
        c.uni_haz_prox.1.distance_from_border *
        (((q : ℚ) / (N_QUALITIES : ℚ) : ℚ) : WithTop ℚ)) := by
  constructor
  · intro hall
    unfold HPCell.value HPCell.calculate_value
    have hnone : c.qz_haz_prox.findIdx?
        (fun q => q.position == GeoPosition.Interior) = none := by
      rw [List.findIdx?_eq_none_iff]
      intro x hx
      rw [beq_eq_false_iff_ne]
      exact hall x hx
    rw [hnone]
    push_cast
    rw [mul_one]
  · intro q hq hint hfirst
    unfold HPCell.value HPCell.calculate_value
    have hsome : c.qz_haz_prox.findIdx?
        (fun q => q.position == GeoPosition.Interior) = some q := by
      apply findIdx_first _ _ q hq
      · rw [beq_iff_eq]
        exact hint
      · intro j hj
        rw [beq_eq_false_iff_ne]
        exact hfirst j hj
    rw [hsome]

/-- Witness for C5 at a concrete cell: quality-zone slot 3 is the first
Interior entry, so the value is scaled by `3/10`. -/
theorem claim_C5_witness :
    HPCell.value { wCell with qz_haz_prox :=
        (List.replicate 3 Proximity.default ++
          [Proximity.mk GeoPosition.Interior ((2 : ℚ) : WithTop ℚ)] ++
          List.replicate 6 Proximity.default) } =
      ((5 : ℚ) : WithTop ℚ) * ((5 : ℚ) : WithTop ℚ) *
        (((3 : ℚ) / (10 : ℚ) : ℚ) : WithTop ℚ) :=
  (claim_C5_value _).2 3 (by decide) (by decide) (by decide)

/-- The fold of `hazard_proximity` over in-range quality levels equals the
plain `minP` fold over the first `q` quality-zone entries. -/
theorem hazard_proximity_fold (c : HPCell) :
    ∀ (q : Nat), q ≤ c.qz_haz_prox.length →
      HPCell.hazard_proximity c (some q) =
        some ((c.qz_haz_prox.take q).foldl Proximity.minP c.uni_haz_prox.1) := by
  intro q
  induction q with
  | zero => intro _; rfl
  | succ n ih =>
    intro hq
    have hn : n < c.qz_haz_prox.length := Nat.lt_of_succ_le hq
    unfold HPCell.hazard_proximity at ih ⊢
    simp only [Option.getD] at ih ⊢
    rw [List.range_succ, List.foldlM_append, ih (Nat.le_of_lt hn)]
    have hget : c.qz_haz_prox[n]? = some (c.qz_haz_prox.get ⟨n, hn⟩) := by
      rw [List.getElem?_eq_getElem hn]
      rfl
    simp only [Option.bind_eq_bind, Option.some_bind, List.foldlM_cons,
      List.foldlM_nil, hget, Option.map_some]
    rw [List.take_succ, hget, List.foldl_append]
    simp

/-- C10: `hazard_proximity(Some(q))` is the minimum, under the Proximity
order, of `uni_haz_prox.0` and the quality-zone entries of index `< q`;
quality classes `≥ q` are ignored, and `hazard_proximity(None)` minimises
over all `N_QUALITIES` classes. -/
theorem claim_C10_hazard_proximity (c : HPCell) (q : Nat)
    (hq : q ≤ c.qz_haz_prox.length) :
    (∃ m, HPCell.hazard_proximity c (some q) = some m ∧
      m ∈ c.uni_haz_prox.1 :: c.qz_haz_prox.take q ∧
      ∀ x ∈ c.uni_haz_prox.1 :: c.qz_haz_prox.take q,
        Proximity.le m x = true) ∧
    HPCell.hazard_proximity c none = HPCell.hazard_proximity c (some N_QUALITIES) := by
  constructor
  · obtain ⟨hmem, hle, hall⟩ :=
      Proximity.foldl_minP_spec c.uni_haz_prox.1 (c.qz_haz_prox.take q)
    refine ⟨(c.qz_haz_prox.take q).foldl Proximity.minP c.uni_haz_prox.1,
      hazard_proximity_fold c q hq, hmem, ?_⟩
    intro x hx
    rcases List.mem_cons.mp hx with rfl | hx
    · exact hle
    · exact hall x hx
  · rfl

/-- Witness for C10 on the concrete cell `wCell` with quality level 4. -/
theorem claim_C10_witness :
    (∃ m, HPCell.hazard_proximity wCell (some 4) = some m ∧
      m ∈ wCell.uni_haz_prox.1 :: wCell.qz_haz_prox.take 4 ∧
      ∀ x ∈ wCell.uni_haz_prox.1 :: wCell.qz_haz_prox.take 4,
        Proximity.le m x = true) ∧
    HPCell.hazard_proximity wCell none =
      HPCell.hazard_proximity wCell (some N_QUALITIES) :=
  claim_C10_hazard_proximity wCell 4 (by decide)

/-- C8: `DTransformation::new(rotation, (tx, ty))` fails (panics) if and only
if some component is NaN; on non-NaN inputs the constructed value's
`rotation()` and `translation()` accessors return exactly the given values,
so a constructed DTransformation never contains NaN. -/
theorem claim_C8_dtransformation_new (r : F64) (t : F64 × F64) :
    ((DTransformation.new r t = none) ↔
      (r.is_nan = true ∨ t.1.is_nan = true ∨ t.2.is_nan = true)) ∧
    (∀ d, DTransformation.new r t = some d →
      d.rotationAcc = r ∧ d.translationAcc = t ∧
      d.rotationAcc.is_nan = false ∧
      d.translationAcc.1.is_nan = false ∧ d.translationAcc.2.is_nan = false) := by
  cases t with
  | mk t0 t1 =>
    constructor
    · cases r <;> cases t0 <;> cases t1 <;>
        simp [DTransformation.new, NotNanF.new, F64.is_nan]
    · intro d hd
      cases r with
      | nan => simp [DTransformation.new, NotNanF.new] at hd
      | val rq =>
        cases t0 with
        | nan => simp [DTransformation.new, NotNanF.new] at hd
        | val q0 =>
          cases t1 with
          | nan => simp [DTransformation.new, NotNanF.new] at hd
          | val q1 =>
            simp only [DTransformation.new, NotNanF.new, Option.some.injEq] at hd
            subst hd
            exact ⟨rfl, rfl, rfl, rfl, rfl⟩

/-- Witness for C8 at rotation 1/2 and translation (3, -7/2). -/
theorem claim_C8_witness :
    DTransformation.new (F64.val (1 / 2)) (F64.val 3, F64.val (-7 / 2)) =
      some (DTransformation.mk (NotNanF.mk (1 / 2))
        (NotNanF.mk 3, NotNanF.mk (-7 / 2))) ∧
    (DTransformation.mk (NotNanF.mk (1 / 2))
      (NotNanF.mk 3, NotNanF.mk (-7 / 2))).rotationAcc = F64.val (1 / 2) ∧
    (DTransformation.mk (NotNanF.mk (1 / 2))
      (NotNanF.mk 3, NotNanF.mk (-7 / 2))).rotationAcc.is_nan = false :=
  ⟨by rfl,
   ((claim_C8_dtransformation_new (F64.val (1 / 2))
      (F64.val 3, F64.val (-7 / 2))).2 _ (by rfl)).1,
   ((claim_C8_dtransformation_new (F64.val (1 / 2))
      (F64.val 3, F64.val (-7 / 2))).2 _ (by rfl)).2.2.1⟩

/-- C9: in the re-placement loop of `modify_strip_width`, a previously
placed item is appended to the new layout exactly when `surrogate_collides`
and then `shape_collides` both return false at the layout state reached so
far; when either returns true the step leaves the layout unchanged (the item
is dropped, `place_item` is not invoked). -/
theorem claim_C9_modify_strip_width (cde : CDEQueries)
    (old_p_uids pre suf : List PlacedItemUID) (p : PlacedItemUID)
    (hsplit : old_p_uids = pre ++ p :: suf) :
    modify_strip_width_replacements cde old_p_uids =
      (p :: suf).foldl (replaceItemStep cde) (pre.foldl (replaceItemStep cde) []) ∧
    (replaceItemStep cde (pre.foldl (replaceItemStep cde) []) p =
        (pre.foldl (replaceItemStep cde) []) ++ [p] ↔
      (cde.surrogate_collides (pre.foldl (replaceItemStep cde) []) p = false ∧
       cde.shape_collides (pre.foldl (replaceItemStep cde) []) p = false)) ∧
    ((cde.surrogate_collides (pre.foldl (replaceItemStep cde) []) p = true ∨
      cde.shape_collides (pre.foldl (replaceItemStep cde) []) p = true) →
      replaceItemStep cde (pre.foldl (replaceItemStep cde) []) p =
        pre.foldl (replaceItemStep cde) []) := by
  have step_eq : ∀ (L : List PlacedItemUID) (u : PlacedItemUID),
      replaceItemStep cde L u =
        if cde.surrogate_collides L u = true then L
        else if cde.shape_collides L u = true then L
        else L ++ [u] := fun _ _ => rfl
  refine ⟨?_, ?_, ?_⟩
  · rw [hsplit]
    unfold modify_strip_width_replacements
    rw [List.foldl_append]
  · constructor
    · intro happ
      by_cases hs : cde.surrogate_collides (pre.foldl (replaceItemStep cde) []) p = true
      · exfalso
        rw [step_eq, if_pos hs] at happ
        exact absurd (congrArg List.length happ) (by simp)
      · simp only [Bool.not_eq_true] at hs
        by_cases hh : cde.shape_collides (pre.foldl (replaceItemStep cde) []) p = true
        · exfalso
          rw [step_eq, if_neg (by simp [hs]), if_pos hh] at happ
          exact absurd (congrArg List.length happ) (by simp)
        · simp only [Bool.not_eq_true] at hh
          exact ⟨hs, hh⟩
    · intro hboth
      rw [step_eq, if_neg (by simp [hboth.1]), if_neg (by simp [hboth.2])]
  · intro hcol
    rcases hcol with hs | hh
    · rw [step_eq, if_pos hs]
    · by_cases hs : cde.surrogate_collides (pre.foldl (replaceItemStep cde) []) p = true
      · rw [step_eq, if_pos hs]
      · rw [step_eq, if_neg hs, if_pos hh]

/-- Witness for C9: an oracle that rejects item id 1 by surrogate collision
and everything by shape collision once the layout is nonempty. -/
theorem claim_C9_witness :
    modify_strip_width_replacements
      (CDEQueries.mk (fun _ u => u.item_id == 1) (fun l _ => !l.isEmpty))
      [PlacedItemUID.mk 0 DTransformation.empty,
       PlacedItemUID.mk 1 DTransformation.empty] =
      (([PlacedItemUID.mk 1 DTransformation.empty] :
          List PlacedItemUID).foldl
        (replaceItemStep (CDEQueries.mk (fun _ u => u.item_id == 1)
          (fun l _ => !l.isEmpty)))
        (([PlacedItemUID.mk 0 DTransformation.empty] :
            List PlacedItemUID).foldl
          (replaceItemStep (CDEQueries.mk (fun _ u => u.item_id == 1)
            (fun l _ => !l.isEmpty))) [])) ∧
    (replaceItemStep (CDEQueries.mk (fun _ u => u.item_id == 1)
        (fun l _ => !l.isEmpty))
      (([PlacedItemUID.mk 0 DTransformation.empty] :
          List PlacedItemUID).foldl
        (replaceItemStep (CDEQueries.mk (fun _ u => u.item_id == 1)
          (fun l _ => !l.isEmpty))) [])
      (PlacedItemUID.mk 1 DTransformation.empty) =
        (([PlacedItemUID.mk 0 DTransformation.empty] :
            List PlacedItemUID).foldl
          (replaceItemStep (CDEQueries.mk (fun _ u => u.item_id == 1)
            (fun l _ => !l.isEmpty))) []) ++
          [PlacedItemUID.mk 1 DTransformation.empty] ↔
      ((CDEQueries.mk (fun _ u => u.item_id == 1)
          (fun l _ => !l.isEmpty)).surrogate_collides
        (([PlacedItemUID.mk 0 DTransformation.empty] :
            List PlacedItemUID).foldl
          (replaceItemStep (CDEQueries.mk (fun _ u => u.item_id == 1)
            (fun l _ => !l.isEmpty))) [])
        (PlacedItemUID.mk 1 DTransformation.empty) = false ∧
       (CDEQueries.mk (fun _ u => u.item_id == 1)
          (fun l _ => !l.isEmpty)).shape_collides
        (([PlacedItemUID.mk 0 DTransformation.empty] :
            List PlacedItemUID).foldl
          (replaceItemStep (CDEQueries.mk (fun _ u => u.item_id == 1)
            (fun l _ => !l.isEmpty))) [])
        (PlacedItemUID.mk 1 DTransformation.empty) = false)) ∧
    (((CDEQueries.mk (fun _ u => u.item_id == 1)
          (fun l _ => !l.isEmpty)).surrogate_collides
        (([PlacedItemUID.mk 0 DTransformation.empty] :
            List PlacedItemUID).foldl
          (replaceItemStep (CDEQueries.mk (fun _ u => u.item_id == 1)
            (fun l _ => !l.isEmpty))) [])
        (PlacedItemUID.mk 1 DTransformation.empty) = true ∨
      (CDEQueries.mk (fun _ u => u.item_id == 1)
          (fun l _ => !l.isEmpty)).shape_collides
        (([PlacedItemUID.mk 0 DTransformation.empty] :
            List PlacedItemUID).foldl
          (replaceItemStep (CDEQueries.mk (fun _ u => u.item_id == 1)
            (fun l _ => !l.isEmpty))) [])
        (PlacedItemUID.mk 1 DTransformation.empty) = true) →
      replaceItemStep (CDEQueries.mk (fun _ u => u.item_id == 1)
          (fun l _ => !l.isEmpty))
        (([PlacedItemUID.mk 0 DTransformation.empty] :
            List PlacedItemUID).foldl
          (replaceItemStep (CDEQueries.mk (fun _ u => u.item_id == 1)
            (fun l _ => !l.isEmpty))) [])
        (PlacedItemUID.mk 1 DTransformation.empty) =
          ([PlacedItemUID.mk 0 DTransformation.empty] :
            List PlacedItemUID).foldl
            (replaceItemStep (CDEQueries.mk (fun _ u => u.item_id == 1)
              (fun l _ => !l.isEmpty))) []) :=
  claim_C9_modify_strip_width
    (CDEQueries.mk (fun _ u => u.item_id == 1) (fun l _ => !l.isEmpty))
    [PlacedItemUID.mk 0 DTransformation.empty,
     PlacedItemUID.mk 1 DTransformation.empty]
    [PlacedItemUID.mk 0 DTransformation.empty]
    [] (PlacedItemUID.mk 1 DTransformation.empty) rfl

/-- C4: on a cell whose state is the registration of the dynamic set `S`
over a fresh baseline, registering one further hazard `H` and then calling
`deregister_hazards` with `H.entity` among the entities to deregister and
`S` as the remaining live set restores `uni_haz_prox` (indeed the whole
cell) to its value before `H` was registered. -/
theorem claim_C4_register_deregister_roundtrip
    (b c cH : HPCell) (S : List Hazard) (H : Hazard) (D : List HazardEntity)
    (u : HPCellUpdate)
    (hbase : b.uni_haz_prox = b.static_uni_haz_prox)
    (hreg : HPCell.register_hazards b S = some c)
    (hregH : HPCell.register_hazard c H = some (cH, u))
    (hD : H.entity ∈ D) :
    ∃ u2, HPCell.deregister_hazards cH D S = some (c, u2) := by
  have hframe := sameFrame_trans (register_hazards_frame hreg)
    (register_hazard_frame hregH)
  have hreset : { cH with uni_haz_prox := cH.static_uni_haz_prox } = b := by
    obtain ⟨e1, e2, e3, e4, e5⟩ := hframe
    cases b with
    | mk b1 b2 b3 b4 b5 b6 =>
      cases cH with
      | mk h1 h2 h3 h4 h5 h6 =>
        simp_all
  have hregs_reset :
      HPCell.register_hazards { cH with uni_haz_prox := cH.static_uni_haz_prox } S =
        some c := by
    rw [hreset]
    exact hreg
  by_cases hmem : cH.uni_haz_prox.2 ∈ D
  · refine ⟨HPCellUpdate.Affected, ?_⟩
    unfold HPCell.deregister_hazards
    rw [if_pos hmem]
    show (match HPCell.register_hazards
        { cH with uni_haz_prox := cH.static_uni_haz_prox } S with
      | none => none
      | some c2 => some (c2, HPCellUpdate.Affected)) = some (c, HPCellUpdate.Affected)
    rw [hregs_reset]
  · rcases register_hazard_cases hregH with ⟨p, _, _, hcell, _⟩ | ⟨hcell, _⟩
    · exfalso
      apply hmem
      rw [hcell]
      exact hD
    · refine ⟨HPCellUpdate.Unaffected, ?_⟩
      unfold HPCell.deregister_hazards
      rw [if_neg hmem, hcell]

/-- Witness for C4: register `wHaz` on `wCell` (empty dynamic set), then
deregister its entity; the cell is restored exactly. -/
theorem claim_C4_witness :
    ∃ u2, HPCell.deregister_hazards
      { wCell with uni_haz_prox :=
        (Proximity.mk GeoPosition.Exterior ((1 : ℚ) : WithTop ℚ),
          HazardEntity.PlacedItem 0) }
      [HazardEntity.PlacedItem 0] [] = some (wCell, u2) :=
  claim_C4_register_deregister_roundtrip wCell wCell _ [] wHaz
    [HazardEntity.PlacedItem 0] HPCellUpdate.Affected (by decide) (by decide)
    (by decide) (by decide)

/-- `distance_to_surrogate_poles_border` depends on the cell only through
its centroid. -/
theorem dtspb_eq_polesProxAt (c : HPCell) (poles : List Circle) :
    distance_to_surrogate_poles_border c poles = polesProxAt c.centroid poles := rfl

/-- A successful interior registration with a known pole proximity: the
Affected outcome on a strict improvement, an unchanged cell otherwise. -/
theorem register_hazard_success (c : HPCell) (H : Hazard) (p : Proximity)
    (hpres : H.entity.presence = GeoPosition.Interior)
    (hp : polesProxAt c.centroid H.shape.surrogate.poles = some p) :
    (Proximity.lt p c.uni_haz_prox.1 = true →
      HPCell.register_hazard c H =
        some ({ c with uni_haz_prox := (p, H.entity) }, HPCellUpdate.Affected)) ∧
    (Proximity.lt p c.uni_haz_prox.1 = false →
      ∃ u, HPCell.register_hazard c H = some (c, u)) := by
  have hd : distance_to_surrogate_poles_border c H.shape.surrogate.poles = some p := hp
  constructor
  · intro hlt
    rw [register_hazard_of_interior c H p hpres hd, if_pos hlt]
  · intro hlt
    rw [register_hazard_of_interior c H p hpres hd, if_neg (by simp [hlt])]
    split
    · exact ⟨HPCellUpdate.Boundary, rfl⟩
    · exact ⟨HPCellUpdate.Unaffected, rfl⟩

/-- When every work-list entry's exact pole proximity fails to beat the
current universal proximity, the no-stop loop leaves the cell unchanged. -/
theorem registerLoopNSF_noop :
    ∀ (fuel : Nat) (l : List BoundEntry) (c : HPCell),
      (∀ e ∈ l, e.1.entity.presence = GeoPosition.Interior ∧
        ∃ p, polesProxAt c.centroid e.1.shape.surrogate.poles = some p ∧
          Proximity.lt p c.uni_haz_prox.1 = false) →
      registerLoopNSF fuel c l = some c := by
  intro fuel
  induction fuel with
  | zero => intro l c _; cases l <;> rfl
  | succ n ih =>
    intro l c hgood
    cases l with
    | nil => rfl
    | cons x xs =>
      have hmem : (minByKeyAux (0, x) 1 xs).2 ∈ x :: xs := by
        rcases minByKeyAux_mem xs (0, x) 1 with h | h
        · rw [h]; exact List.mem_cons_self x xs
        · exact List.mem_cons_of_mem x h
      obtain ⟨hpres, p, hp, hlt⟩ := hgood _ hmem
      obtain ⟨u, hru⟩ := (register_hazard_success c _ p hpres hp).2 hlt
      simp only [registerLoopNSF, hru]
      exact ih _ c (fun e he => hgood e (swapRemove_subset _ _ e he))

/-- With sound bounding lower bounds, the early-stopping registration loop
computes the same cell as the loop with no early stop. -/
theorem registerLoopF_eq_NSF :
    ∀ (fuel : Nat) (l : List BoundEntry) (c : HPCell),
      (∀ e ∈ l, e.1.entity.presence = GeoPosition.Interior ∧
        e.2 = some (boundProxAt c.centroid e.1) ∧
        LowerBounded c.centroid e.1) →
      registerLoopF fuel c l = registerLoopNSF fuel c l := by
  intro fuel
  induction fuel with
  | zero => intro l c _; cases l <;> rfl
  | succ n ih =>
    intro l c hgood
    cases l with
    | nil => rfl
    | cons x xs =>
      have hmem : (minByKeyAux (0, x) 1 xs).2 ∈ x :: xs := by
        rcases minByKeyAux_mem xs (0, x) 1 with h | h
        · rw [h]; exact List.mem_cons_self x xs
        · exact List.mem_cons_of_mem x h
      obtain ⟨hpres, hkey, hlb⟩ := hgood _ hmem
      obtain ⟨p, hp, hble⟩ := hlb
      simp only [registerLoopF, registerLoopNSF, hkey]
      by_cases hle : Proximity.le (boundProxAt c.centroid (minByKeyAux (0, x) 1 xs).2.1)
          c.uni_haz_prox.1 = true
      · rw [if_pos hle]
        by_cases hlt : Proximity.lt p c.uni_haz_prox.1 = true
        · have hr := (register_hazard_success c _ p hpres hp).1 hlt
          simp only [hr]
          apply ih
          intro e he
          exact hgood e (swapRemove_subset _ _ e he)
        · obtain ⟨u, hr⟩ :=
            (register_hazard_success c _ p hpres hp).2 (by simpa using hlt)
          simp only [hr]
          apply ih
          intro e he
          exact hgood e (swapRemove_subset _ _ e he)
      · rw [if_neg hle]
        simp only [Bool.not_eq_true] at hle
        refine (registerLoopNSF_noop (n + 1) (x :: xs) c ?_).symm
        intro e he
        obtain ⟨h1, h2, h3⟩ := hgood e he
        obtain ⟨pe, hpe, hbe⟩ := h3
        refine ⟨h1, pe, hpe, ?_⟩
        have hminle : optProxLe (minByKeyAux (0, x) 1 xs).2.2 e.2 = true := by
          rcases List.mem_cons.mp he with rfl | hin
          · exact (minByKeyAux_min xs (0, e) 1).1
          · exact (minByKeyAux_min xs (0, x) 1).2 e hin
        rw [hkey, h2] at hminle
        have hb2 : Proximity.le (boundProxAt c.centroid (minByKeyAux (0, x) 1 xs).2.1)
            (boundProxAt c.centroid e.1) = true := hminle
        have huni : Proximity.le c.uni_haz_prox.1
            (boundProxAt c.centroid (minByKeyAux (0, x) 1 xs).2.1) = true :=
          Proximity.le_of_lt_prox (Proximity.lt_of_not_le_prox hle)
        have : Proximity.le c.uni_haz_prox.1 pe = true :=
          Proximity.le_trans_prox (Proximity.le_trans_prox huni hb2) hbe
        exact Proximity.not_lt_of_le_prox this

/-- C2 (amended): when the bounding-circle pre-screening proximity of each
active hazard is a sound lower bound under the Proximity total order for its
exact pole proximity, `register_hazards` — which registers hazards in
ascending lower-bound order and stops as soon as the next lower bound
exceeds the current `uni_haz_prox.0` under the Proximity order — computes
the same cell as registering every active hazard with no early stop. -/
theorem claim_C2_early_stop_sound (c : HPCell) (l : List Hazard)
    (hgood : ∀ h ∈ l, h.is_active = true →
      h.entity.presence = GeoPosition.Interior ∧ LowerBounded c.centroid h) :
    HPCell.register_hazards c l = register_hazards_no_stop c l := by
  unfold HPCell.register_hazards register_hazards_no_stop registerLoop
  apply registerLoopF_eq_NSF
  intro e he
  obtain ⟨hmem, hact, hcases⟩ := boundingPoleDistances_mem he
  obtain ⟨hpres, hlb⟩ := hgood e.1 hmem hact
  rcases hcases with ⟨hpe, _⟩ | ⟨_, hkey⟩
  · rw [hpres] at hpe
    exact absurd hpe (by simp)
  · exact ⟨hpres, hkey, hlb⟩

/-- Witness for C2 at the concrete cell `cexCell` and hazard `cexHaz`. -/
theorem claim_C2_witness :
    HPCell.register_hazards cexCell [cexHaz] =
      register_hazards_no_stop cexCell [cexHaz] :=
  claim_C2_early_stop_sound cexCell [cexHaz] (by
    intro h hmem hact
    rw [List.mem_singleton] at hmem
    subst hmem
    exact ⟨by decide,
      ⟨Proximity.mk GeoPosition.Interior ((4 : ℚ) : WithTop ℚ),
        by decide, by decide⟩⟩)

/-- C2 counterexample: read literally — "stop as soon as the next lower
bound exceeds the current `uni_haz_prox.0.|d|`", a comparison of the `|d|`
components — the stopping rule disagrees with the code. On `cexCell`
(currently Interior at depth 3) and `cexHaz` (lower bound Interior at depth
5, a sound lower bound for its pole proximity Interior at depth 4), the
literal rule stops (5 > 3) and leaves the cell unchanged, while the code
compares under the Proximity order (deeper inside = closer), registers the
hazard, and updates the cell. -/
theorem claim_C2_counterexample :
    register_hazards_claim_stop cexCell [cexHaz] = some cexCell ∧
    HPCell.register_hazards cexCell [cexHaz] =
      some { cexCell with uni_haz_prox :=
        (Proximity.mk GeoPosition.Interior ((4 : ℚ) : WithTop ℚ),
          HazardEntity.PlacedItem 1) } ∧
    HPCell.register_hazards cexCell [cexHaz] ≠
      register_hazards_claim_stop cexCell [cexHaz] :=
  ⟨by decide, by decide, by decide⟩

end JaguaRS
